import Mathlib

set_option maxRecDepth 200000

/-!
Verification development for the WA_ID_Finder matching engine.

The repository resolves athlete roster rows lacking a World Athletics id to
records of a reference registry.  The algorithmic core lives in
`src/fuzzy_match.py`, `src/fuzzy_match2.py` and `src/fuzzymatch_3.py`
(three copies of the same engine; `app.py` is UI/scraping plumbing).
This file gives a shallow embedding of that core:

* the reference registry is loaded into a Python dict keyed by name
  (`wa_athletes_dict`, fuzzy_match2.py lines 27-40) -> `buildDict`;
* `process.extract(query, names, limit=5, scorer=...)` scores every name,
  sorts stably by descending score and keeps the first five -> `extract`;
* the name-first strategy (`find_best_match_name_first`, fuzzy_match2.py
  lines 43-70, identical to `find_best_match` of fuzzy_match.py lines 49-86
  and `find_best_match_name_first_fw`/`_rf` of fuzzymatch_3.py);
* the birth-date-first strategy (`find_best_match_birth_first`,
  fuzzy_match2.py lines 73-102, identical to the `_fw`/`_rf` variants of
  fuzzymatch_3.py lines 96-140);
* the per-athlete matching loop with its two name orientations and the
  cross-strategy consensus (fuzzy_match2.py lines 108-141) -> `pickBetter`,
  `combineResults`, `processAthlete`;
* confidence classification (fuzzy_match2.py lines 188-202) ->
  `confidenceOf`, `recommendedOf`, `recommendedIdOf`, `resolveAthlete`;
* the cross-backend average of fuzzymatch_3.py (`avg_score`, lines 233-241).

The similarity backend (`fuzz.token_sort_ratio` of the fuzzywuzzy library,
an external dependency) is passed as an explicit function argument
`sc : String -> String -> Nat`, mirroring the spec's pluggable Similarity
Scorer; a faithful executable model of `token_sort_ratio` itself
(`tokenSortRatio` below) is used for concrete runs.  Name scores are
integers (as the backends return); combined scores are modelled as exact
rationals.  Python evaluates the score expressions in binary floating
point, whose sub-1e-13 representation error on values such as `0.7*100`
is idealized away here: every claim concerns the exact decimal arithmetic
in which both the spec and the code's comments state the formulas.

A missing birth date is modelled as `none`: the strategy functions receive
`None`-like (falsy) values for absent dates, which is the branch the
Python conditionals (`if athlete_birth_date and wa_birth_date`) take.
-/

/-- One record of the reference registry as stored in `wa_athletes_dict`
(fuzzy_match2.py lines 34-39): external id and normalized birth-date string
(`None` when the registry has no birth date).  `urlSlug`/`disciplines` are
carried along unchanged by the code and play no role in matching, so they
are omitted. -/
structure WAData where
  ID : Nat
  birthDate : Option String
deriving DecidableEq, Repr

/-- One raw row of the `WorldAthletics_codes` sheet, before it is folded
into the dict (fuzzy_match2.py lines 29-40). -/
structure WARow where
  name : String
  ID : Nat
  birthDate : Option String
deriving DecidableEq, Repr

/-- Python dict lookup on an insertion-ordered association list. -/
def dictLookup (d : List (String × WAData)) (k : String) : Option WAData :=
  (d.find? (fun p => p.1 = k)).map (fun p => p.2)

/-- Python dict assignment `d[k] = v`: if the key exists its value is
replaced in place (keeping its position), otherwise the pair is appended. -/
def dictInsert (d : List (String × WAData)) (k : String) (v : WAData) :
    List (String × WAData) :=
  if d.any (fun p => p.1 = k) then
    d.map (fun p => if p.1 = k then (k, v) else p)
  else
    d ++ [(k, v)]

/-- `wa_athletes_dict` construction (fuzzy_match2.py lines 27-40,
fuzzy_match.py lines 31-46): iterate the registry rows and assign
`wa_athletes_dict[name] = {...}`; a repeated name overwrites the earlier
entry. -/
def buildDict (rows : List WARow) : List (String × WAData) :=
  rows.foldl (fun d r => dictInsert d r.name ⟨r.ID, r.birthDate⟩) []

/-- `wa_names_list` (fuzzy_match2.py line 40): every row's name is
appended, duplicates included. -/
def namesList (rows : List WARow) : List String :=
  rows.map (fun r => r.name)

/-- Insert a scored pair into a descending-sorted list, after earlier
pairs of equal score (the stable order produced by `heapq.nlargest`
inside fuzzywuzzy's `process.extract`). -/
def insertDesc (p : String × Nat) : List (String × Nat) → List (String × Nat)
  | [] => [p]
  | q :: qs => if p.2 ≥ q.2 then p :: q :: qs else q :: insertDesc p qs

/-- Stable sort of scored pairs by descending score. -/
def sortDescPairs : List (String × Nat) → List (String × Nat)
  | [] => []
  | p :: ps => insertDesc p (sortDescPairs ps)

/-- `process.extract(query, names, limit, scorer)`: score every candidate
name with the scorer, sort stably by descending score, keep the first
`lim` pairs (fuzzy_match2.py lines 45 and 84). -/
def extract (sc : String → String → Nat) (q : String) (names : List String)
    (lim : Nat) : List (String × Nat) :=
  (sortDescPairs (names.map (fun n => (n, sc q n)))).take lim

/-- Birth-date score of one candidate (fuzzy_match2.py lines 52-54):
100 on exact equality of the two date strings, 0 otherwise; no comparison
happens when either side is missing. -/
def bdScoreOf (qbd wbd : Option String) : Nat :=
  match qbd, wbd with
  | some a, some b => if a = b then 100 else 0
  | _, _ => 0

/-- Combined score of one name-first candidate (fuzzy_match2.py lines
56-59): `0.7*name_score + 0.3*birth_date_score` when both birth dates are
present, the bare name score otherwise. -/
def combinedOf (qbd wbd : Option String) (nameScore : Nat) : ℚ :=
  match qbd, wbd with
  | some _, some _ => 7/10 * (nameScore : ℚ) + 3/10 * (bdScoreOf qbd wbd : ℚ)
  | _, _ => (nameScore : ℚ)

/-- The best-match record built by either strategy (the Python result
dicts, fuzzy_match2.py lines 62-68 and 94-101). -/
structure ScoredMatch where
  matchedName : String
  matchedID : Nat
  matchedBirthDate : Option String
  nameScore : Nat
  birthDateScore : Nat
  combinedScore : ℚ
deriving DecidableEq, Repr

/-- One iteration of the best-candidate scan shared by every matching
function: keep the running `(best_score, best_match)` pair, replacing it
when the current value is strictly greater (the `if combined_score >
best_combined_score` update of fuzzy_match2.py lines 60-68 and 92-101;
the accumulator starts at `(0, None)`). -/
def bestStep (f : α → ℚ) (g : α → ScoredMatch)
    (acc : ℚ × Option ScoredMatch) (x : α) : ℚ × Option ScoredMatch :=
  if f x > acc.1 then (f x, some (g x)) else acc

/-- The combined score the name-first scan assigns to an extracted pair:
the candidate's registry data is looked up in the dict (`wa_dict[match_name]`,
fuzzy_match2.py line 49). -/
def nfValue (qbd : Option String) (d : List (String × WAData))
    (p : String × Nat) : ℚ :=
  combinedOf qbd (((dictLookup d p.1).getD ⟨0, none⟩).birthDate) p.2

/-- The result dict the name-first scan builds for an extracted pair
(fuzzy_match2.py lines 62-68). -/
def mkScored (qbd : Option String) (d : List (String × WAData))
    (p : String × Nat) : ScoredMatch :=
  let wa := (dictLookup d p.1).getD ⟨0, none⟩
  { matchedName := p.1
    matchedID := wa.ID
    matchedBirthDate := wa.birthDate
    nameScore := p.2
    birthDateScore := bdScoreOf qbd wa.birthDate
    combinedScore := combinedOf qbd wa.birthDate p.2 }

/-- `find_best_match_name_first` (fuzzy_match2.py lines 43-70); the same
logic as `find_best_match` (fuzzy_match.py lines 49-86) and
`find_best_match_name_first_fw`/`_rf` (fuzzymatch_3.py lines 50-93):
extract the top five name matches, score each against the query birth
date, keep the strictly best combined score (`None` if no candidate
exceeds the initial best score 0). -/
def find_best_match_name_first (sc : String → String → Nat)
    (athlete_name : String) (athlete_birth_date : Option String)
    (wa_names : List String) (wa_dict : List (String × WAData)) :
    Option ScoredMatch :=
  ((extract sc athlete_name wa_names 5).foldl
    (bestStep (nfValue athlete_birth_date wa_dict)
              (mkScored athlete_birth_date wa_dict))
    (0, none)).2

/-- The candidate pool of the birth-date-first strategy (fuzzy_match2.py
lines 74-78): when the query has a birth date, only registry entries whose
birth date equals it exactly; the whole dict otherwise. -/
def birthCandidates (qbd : Option String) (d : List (String × WAData)) :
    List (String × WAData) :=
  match qbd with
  | some bd => d.filter (fun p => p.2.birthDate = some bd)
  | none => d

/-- The combined score of a birth-first candidate (fuzzy_match2.py line
91): `0.7 * 100 + 0.3 * name_score`, the birth-date factor fixed at 100. -/
def bfValue (p : String × Nat) : ℚ :=
  7/10 * 100 + 3/10 * (p.2 : ℚ)

/-- The result dict the birth-first scan builds for an extracted pair
(fuzzy_match2.py lines 94-101). -/
def mkScoredBF (cands : List (String × WAData)) (p : String × Nat) :
    ScoredMatch :=
  let wa := (dictLookup cands p.1).getD ⟨0, none⟩
  { matchedName := p.1
    matchedID := wa.ID
    matchedBirthDate := wa.birthDate
    nameScore := p.2
    birthDateScore := 100
    combinedScore := bfValue p }

/-- `find_best_match_birth_first` (fuzzy_match2.py lines 73-102); the same
logic as `find_best_match_birth_first_fw`/`_rf` (fuzzymatch_3.py lines
96-140): filter the dict by exact birth date (full dict when the query has
none), return `None` on an empty pool, otherwise scan the top five name
matches with the fixed `0.7*100 + 0.3*name_score` weighting. -/
def find_best_match_birth_first (sc : String → String → Nat)
    (athlete_birth_date : Option String) (athlete_name : String)
    (wa_dict : List (String × WAData)) : Option ScoredMatch :=
  if (birthCandidates athlete_birth_date wa_dict).isEmpty then none
  else
    ((extract sc athlete_name
        ((birthCandidates athlete_birth_date wa_dict).map (fun p => p.1)) 5).foldl
      (bestStep bfValue (mkScoredBF (birthCandidates athlete_birth_date wa_dict)))
      (0, none)).2

/-- Orientation selection (fuzzy_match2.py lines 112-115 and 120-123):
of the two orientation results keep the one with the higher combined
score, ties and a missing partner favouring the first. -/
def pickBetter (m1 m2 : Option ScoredMatch) : Option ScoredMatch :=
  match m1, m2 with
  | some a, some b => if a.combinedScore ≥ b.combinedScore then some a else some b
  | some a, none => some a
  | none, some b => some b
  | none, none => none

/-- Cross-strategy consensus (fuzzy_match2.py lines 126-141; identical
inline logic at fuzzymatch_3.py lines 166-179 and 193-206): same id ->
average of the two scores; different ids -> the higher-scoring result
with its score scaled by 0.9; one result -> passed through unchanged. -/
def combineResults (best1 best2 : Option ScoredMatch) :
    Option ScoredMatch × Option ℚ :=
  match best1, best2 with
  | some b1, some b2 =>
    if b1.matchedID = b2.matchedID then
      (some b1, some ((b1.combinedScore + b2.combinedScore) / 2))
    else if b1.combinedScore ≥ b2.combinedScore then
      (some b1, some (b1.combinedScore * (9/10)))
    else
      (some b2, some (b2.combinedScore * (9/10)))
  | some b1, none => (some b1, some b1.combinedScore)
  | none, some b2 => (some b2, some b2.combinedScore)
  | none, none => (none, none)

/-- One roster row as the matching loop sees it: first/last name and the
normalized birth-date string (`none` when missing). -/
structure Athlete where
  firstName : String
  lastName : String
  birthDate : Option String
deriving DecidableEq, Repr

/-- `Full_Name` (fuzzy_match2.py line 21). -/
def fullName (a : Athlete) : String := a.firstName ++ " " ++ a.lastName

/-- `Full_Name_Reversed` (fuzzy_match2.py line 22). -/
def fullNameReversed (a : Athlete) : String := a.lastName ++ " " ++ a.firstName

/-- The per-athlete matching loop body (fuzzy_match2.py lines 108-141):
run both strategies on both name orientations, keep the better orientation
per strategy, combine across strategies. -/
def processAthlete (sc : String → String → Nat) (a : Athlete)
    (rows : List WARow) : Option ScoredMatch × Option ℚ :=
  let wa_dict := buildDict rows
  let wa_names := namesList rows
  let m1a := find_best_match_name_first sc (fullName a) a.birthDate wa_names wa_dict
  let m1b := find_best_match_name_first sc (fullNameReversed a) a.birthDate wa_names wa_dict
  let best1 := pickBetter m1a m1b
  let m2a := find_best_match_birth_first sc a.birthDate (fullName a) wa_dict
  let m2b := find_best_match_birth_first sc a.birthDate (fullNameReversed a) wa_dict
  let best2 := pickBetter m2a m2b
  combineResults best1 best2

/-- Confidence bands (fuzzy_match2.py lines 190-198). -/
inductive Confidence
  | High
  | Medium
  | Low
deriving DecidableEq, Repr

/-- Band assignment (fuzzy_match2.py lines 190-198 and fuzzy_match.py
lines 140-148): High at 90 and above, Medium at 70 and above, Low below. -/
def confidenceOf (s : ℚ) : Confidence :=
  if s ≥ 90 then Confidence.High
  else if s ≥ 70 then Confidence.Medium
  else Confidence.Low

/-- `WA_Recommended` assignment (same if-chain as the band). -/
def recommendedOf (s : ℚ) : Bool :=
  if s ≥ 90 then true
  else if s ≥ 70 then true
  else false

/-- `WA_Recommended_ID` (fuzzy_match2.py lines 201-202): populated only
when the final score reaches 90. -/
def recommendedIdOf (s : ℚ) (wid : Nat) : Option Nat :=
  if s ≥ 90 then some wid else none

/-- The terminal per-query output (spec's FinalResolution): final id and
score plus the classification columns of fuzzy_match2.py lines 179-202. -/
structure FinalResolution where
  finalID : Nat
  finalScore : ℚ
  confidence : Confidence
  recommended : Bool
  recommendedID : Option Nat
deriving DecidableEq, Repr

/-- End-to-end resolution of one roster row: matching loop plus the
confidence columns; `none` when the loop produced no final match. -/
def resolveAthlete (sc : String → String → Nat) (a : Athlete)
    (rows : List WARow) : Option FinalResolution :=
  let res := processAthlete sc a rows
  match res.1, res.2 with
  | some fm, some s =>
      some ⟨fm.matchedID, s, confidenceOf s, recommendedOf s,
            recommendedIdOf s fm.matchedID⟩
  | _, _ => none

/-- `avg_score` (fuzzymatch_3.py lines 233-241): the mean of whichever of
the two per-backend overall scores are present; `None` when neither is. -/
def avg_score (fw rf : Option ℚ) : Option ℚ :=
  match fw, rf with
  | some a, some b => some ((a + b) / 2)
  | some a, none => some a
  | none, some b => some b
  | none, none => none

/-!
Executable model of the fuzzywuzzy similarity backend
`fuzz.token_sort_ratio` (used with `process.extract` in all three
scripts).  The library lowercases, replaces non-alphanumeric characters
with spaces, splits on whitespace, sorts the tokens, joins them with
single spaces and applies `fuzz.ratio`, i.e. difflib's SequenceMatcher
ratio `round(200 * M / T)` where `M` is the total size of the recursively
found longest matching blocks and `T` the sum of the two lengths
(Python's banker's rounding; ratio 100 when both strings are empty).
Only ASCII alphanumerics are recognized, which covers the data involved.
-/

/-- fuzzywuzzy `full_process`, per character: lowercase alphanumerics,
anything else becomes a space. -/
def normChar (c : Char) : Char :=
  if c.isAlphanum then c.toLower else ' '

/-- Split a character list on spaces, dropping empty tokens (Python's
`str.split()` after `full_process`, which also subsumes the strip). -/
def splitTokensAux : List Char → List Char → List (List Char)
  | [], cur => if cur.isEmpty then [] else [cur.reverse]
  | c :: cs, cur =>
    if c = ' ' then
      if cur.isEmpty then splitTokensAux cs []
      else cur.reverse :: splitTokensAux cs []
    else splitTokensAux cs (c :: cur)

/-- Lexicographic code-point comparison of two tokens (Python string
ordering used by `sorted`). -/
def charListLe : List Char → List Char → Bool
  | [], _ => true
  | _ :: _, [] => false
  | a :: as, b :: bs => if a = b then charListLe as bs else decide (a < b)

/-- Insertion step of the ascending stable token sort. -/
def insertTok (t : List Char) : List (List Char) → List (List Char)
  | [] => [t]
  | u :: us => if charListLe t u then t :: u :: us else u :: insertTok t us

/-- Ascending stable sort of the token list (Python `sorted(tokens)`). -/
def sortToks : List (List Char) → List (List Char)
  | [] => []
  | t :: ts => insertTok t (sortToks ts)

/-- Join tokens with single spaces (`" ".join(tokens)`). -/
def joinToks : List (List Char) → List Char
  | [] => []
  | [t] => t
  | t :: ts => t ++ ' ' :: joinToks ts

/-- The processed, token-sorted form of a string that
`fuzz.token_sort_ratio` feeds to `fuzz.ratio`. -/
def tokenSortChars (s : String) : List Char :=
  joinToks (sortToks (splitTokensAux (s.data.map normChar) []))

/-- Length of the common run of equal characters at the heads of the two
lists. -/
def commonRunLen : List Char → List Char → Nat
  | a :: as, b :: bs => if a = b then commonRunLen as bs + 1 else 0
  | _, _ => 0

/-- difflib `find_longest_match` over the whole strings: the longest
common contiguous block, earliest start in the first string and then in
the second breaking ties; `(0, 0, 0)` when there is no common block. -/
def findLongestMatch (a b : List Char) : Nat × Nat × Nat :=
  ((List.range (a.length + 1)).flatMap (fun i =>
      (List.range (b.length + 1)).map (fun j =>
        (i, j, commonRunLen (a.drop i) (b.drop j))))).foldl
    (fun best c => if c.2.2 > best.2.2 then c else best) (0, 0, 0)

/-- Total size of difflib's matching blocks: recursively take the longest
matching block and recurse on the pieces to its left and right.  The fuel
argument only serves termination; `seqRatio` supplies enough for the
recursion (each level removes at least one character from each side it
recurses into). -/
def matchTotal : Nat → List Char → List Char → Nat
  | 0, _, _ => 0
  | fuel + 1, a, b =>
    let r := findLongestMatch a b
    if r.2.2 = 0 then 0
    else
      matchTotal fuel (a.take r.1) (b.take r.2.1) + r.2.2 +
        matchTotal fuel (a.drop (r.1 + r.2.2)) (b.drop (r.2.1 + r.2.2))

/-- Python `round` (round half to even, as `int(round(x))` in
fuzzywuzzy's `intr`) applied to the non-negative fraction `n / d`,
`d > 0`, in integer arithmetic. -/
def pyRoundNat (n d : Nat) : Nat :=
  let f := n / d
  let r := n % d
  if 2 * r < d then f
  else if d < 2 * r then f + 1
  else if f % 2 = 0 then f else f + 1

/-- difflib ratio scaled to 0..100: `round(200*M/T)`, and 100 when both
strings are empty (difflib returns ratio 1.0 for `T = 0`). -/
def seqRatio (a b : List Char) : Nat :=
  let T := a.length + b.length
  if T = 0 then 100
  else pyRoundNat (200 * matchTotal T a b) T

/-- `fuzz.token_sort_ratio`: difflib ratio of the processed, token-sorted
strings. -/
def tokenSortRatio (s1 s2 : String) : Nat :=
  seqRatio (tokenSortChars s1) (tokenSortChars s2)

set_option maxRecDepth 8000 in
example : tokenSortRatio "Abc" "Xyz" = 0 := by decide
set_option maxRecDepth 8000 in
example : tokenSortRatio "Abc" "Abc" = 100 := by decide
set_option maxRecDepth 100000 in
example : tokenSortRatio "Hassan Ali" "Ali Hassan" = 100 := by decide
set_option maxRecDepth 20000 in
example : tokenSortRatio "A B" "B A" = 100 := by decide

/-!
Helper lemmas about the best-candidate scan, the stable descending sort
inside the candidate generator, and the dict model.
-/


lemma bestStep_foldl_sound {α : Type} (f : α → ℚ) (g : α → ScoredMatch) :
    ∀ (l : List α) (acc : ℚ × Option ScoredMatch) (m : ScoredMatch),
      (l.foldl (bestStep f g) acc).2 = some m →
      acc.2 = some m ∨ ∃ x ∈ l, m = g x := by
  intro l
  induction l with
  | nil => intro acc m h; exact Or.inl h
  | cons x xs ih =>
    intro acc m h
    rw [List.foldl_cons] at h
    rcases ih (bestStep f g acc x) m h with h1 | ⟨y, hy, hm⟩
    · unfold bestStep at h1
      by_cases hc : f x > acc.1
      · rw [if_pos hc] at h1
        exact Or.inr ⟨x, List.mem_cons_self x xs, (Option.some_inj.mp h1).symm⟩
      · rw [if_neg hc] at h1
        exact Or.inl h1
    · exact Or.inr ⟨y, List.mem_cons_of_mem x hy, hm⟩

lemma bestStep_foldl_persist {α : Type} (f : α → ℚ) (g : α → ScoredMatch) :
    ∀ (l : List α) (acc : ℚ × Option ScoredMatch),
      acc.2.isSome = true → ((l.foldl (bestStep f g) acc).2).isSome = true := by
  intro l
  induction l with
  | nil => intro acc h; exact h
  | cons x xs ih =>
    intro acc h
    rw [List.foldl_cons]
    apply ih
    unfold bestStep
    by_cases hc : f x > acc.1
    · rw [if_pos hc]; rfl
    · rw [if_neg hc]; exact h

lemma bestStep_foldl_some_of_pos {α : Type} (f : α → ℚ) (g : α → ScoredMatch) :
    ∀ (l : List α) (acc : ℚ × Option ScoredMatch),
      0 ≤ acc.1 → (0 < acc.1 → acc.2.isSome = true) →
      (∃ x ∈ l, 0 < f x) → ((l.foldl (bestStep f g) acc).2).isSome = true := by
  intro l
  induction l with
  | nil =>
    intro acc _ _ hex
    rcases hex with ⟨x, hx, _⟩
    exact absurd hx (List.not_mem_nil x)
  | cons x xs ih =>
    intro acc h0 hpos hex
    rw [List.foldl_cons]
    rcases hex with ⟨w, hw, hfw⟩
    rcases List.mem_cons.mp hw with hwx | hwxs
    · subst hwx
      unfold bestStep
      by_cases hc : f w > acc.1
      · rw [if_pos hc]
        exact bestStep_foldl_persist f g xs _ rfl
      · push_neg at hc
        have : 0 < acc.1 := lt_of_lt_of_le hfw hc
        have hsome := hpos this
        apply bestStep_foldl_persist f g xs
        rw [if_neg (by push_neg; exact hc)]
        exact hsome
    · apply ih
      · unfold bestStep
        by_cases hc : f x > acc.1
        · rw [if_pos hc]
          exact le_of_lt (lt_of_le_of_lt h0 hc)
        · rw [if_neg hc]; exact h0
      · unfold bestStep
        by_cases hc : f x > acc.1
        · rw [if_pos hc]; intro _; rfl
        · rw [if_neg hc]; exact hpos
      · exact ⟨w, hwxs, hfw⟩

lemma bestStep_foldl_top {α : Type} (f : α → ℚ) (g : α → ScoredMatch) (M : ScoredMatch) :
    ∀ (l : List α) (acc : ℚ × Option ScoredMatch),
      acc.1 ≤ 100 → (acc.1 = 100 → acc.2 = some M) →
      (∀ x ∈ l, f x ≤ 100 ∧ (f x = 100 → g x = M)) →
      ((∃ x ∈ l, f x = 100) ∨ acc.1 = 100) →
      (l.foldl (bestStep f g) acc).2 = some M := by
  intro l
  induction l with
  | nil =>
    intro acc _ htop _ hex
    rcases hex with ⟨x, hx, _⟩ | h100
    · exact absurd hx (List.not_mem_nil x)
    · exact htop h100
  | cons x xs ih =>
    intro acc hle htop hall hex
    rw [List.foldl_cons]
    have hx := hall x (List.mem_cons_self x xs)
    have hall' : ∀ y ∈ xs, f y ≤ 100 ∧ (f y = 100 → g y = M) :=
      fun y hy => hall y (List.mem_cons_of_mem x hy)
    apply ih (bestStep f g acc x)
    · unfold bestStep
      by_cases hc : f x > acc.1
      · rw [if_pos hc]; exact hx.1
      · rw [if_neg hc]; exact hle
    · unfold bestStep
      by_cases hc : f x > acc.1
      · rw [if_pos hc]
        intro h100
        simp only []
        exact congrArg some (hx.2 h100)
      · rw [if_neg hc]; exact htop
    · exact hall'
    · rcases hex with ⟨w, hw, hfw⟩ | h100
      · rcases List.mem_cons.mp hw with hwx | hwxs
        · subst hwx
          right
          unfold bestStep
          by_cases hc : f w > acc.1
          · rw [if_pos hc]; exact hfw
          · push_neg at hc
            rw [if_neg (by push_neg; exact hc)]
            exact le_antisymm hle (hfw ▸ hc)
        · exact Or.inl ⟨w, hwxs, hfw⟩
      · right
        unfold bestStep
        have hc : ¬ f x > acc.1 := by
          rw [h100]
          exact not_lt.mpr hx.1
        rw [if_neg hc]
        exact h100

lemma mem_insertDesc (p q : String × Nat) :
    ∀ l : List (String × Nat), q ∈ insertDesc p l ↔ q = p ∨ q ∈ l := by
  intro l
  induction l with
  | nil => simp [insertDesc]
  | cons y ys ih =>
    unfold insertDesc
    by_cases hc : p.2 ≥ y.2
    · rw [if_pos hc]
      simp [List.mem_cons]
    · rw [if_neg hc]
      simp only [List.mem_cons, ih]
      tauto

lemma mem_sortDescPairs (q : String × Nat) :
    ∀ l : List (String × Nat), q ∈ sortDescPairs l ↔ q ∈ l := by
  intro l
  induction l with
  | nil => simp [sortDescPairs]
  | cons y ys ih =>
    unfold sortDescPairs
    rw [mem_insertDesc, ih]
    simp [List.mem_cons]

lemma length_insertDesc (p : String × Nat) :
    ∀ l : List (String × Nat), (insertDesc p l).length = l.length + 1 := by
  intro l
  induction l with
  | nil => rfl
  | cons y ys ih =>
    unfold insertDesc
    by_cases hc : p.2 ≥ y.2
    · rw [if_pos hc]; rfl
    · rw [if_neg hc]
      simp [List.length_cons, ih]

lemma length_sortDescPairs :
    ∀ l : List (String × Nat), (sortDescPairs l).length = l.length := by
  intro l
  induction l with
  | nil => rfl
  | cons y ys ih =>
    unfold sortDescPairs
    rw [length_insertDesc, ih]
    rfl

lemma sortDescPairs_head_ge :
    ∀ (l : List (String × Nat)) (h : String × Nat) (t : List (String × Nat)),
      sortDescPairs l = h :: t → ∀ p ∈ l, p.2 ≤ h.2 := by
  intro l
  induction l with
  | nil => intro h t heq; simp [sortDescPairs] at heq
  | cons x xs ih =>
    intro h t heq p hp
    unfold sortDescPairs at heq
    rcases hs : sortDescPairs xs with _ | ⟨y, ys⟩
    · rw [hs] at heq
      unfold insertDesc at heq
      injection heq with h1 h2
      have hxs : xs = [] := by
        have := length_sortDescPairs xs
        rw [hs] at this
        exact List.length_eq_zero.mp this.symm
      subst hxs
      rcases List.mem_cons.mp hp with hpx | hpn
      · subst hpx; rw [h1]
      · exact absurd hpn (List.not_mem_nil p)
    · rw [hs] at heq
      unfold insertDesc at heq
      by_cases hc : x.2 ≥ y.2
      · rw [if_pos hc] at heq
        injection heq with h1 h2
        rw [← h1]
        rcases List.mem_cons.mp hp with hpx | hpn
        · subst hpx; exact le_refl _
        · exact le_trans (ih y ys hs p hpn) hc
      · rw [if_neg hc] at heq
        injection heq with h1 h2
        rw [← h1]
        rcases List.mem_cons.mp hp with hpx | hpn
        · subst hpx; exact le_of_not_ge hc
        · exact ih y ys hs p hpn

lemma mem_extract {sc : String → String → Nat} {q : String} {names : List String}
    {lim : Nat} {p : String × Nat} (h : p ∈ extract sc q names lim) :
    p.1 ∈ names ∧ p.2 = sc q p.1 := by
  unfold extract at h
  have h2 := List.take_subset lim _ h
  rw [mem_sortDescPairs] at h2
  rcases List.mem_map.mp h2 with ⟨n, hn, hp⟩
  subst hp
  exact ⟨hn, rfl⟩

lemma extract_ne_nil {sc : String → String → Nat} {q : String} {names : List String}
    (h : names ≠ []) : extract sc q names 5 ≠ [] := by
  have hl : (extract sc q names 5).length = min 5 names.length := by
    unfold extract
    rw [List.length_take, length_sortDescPairs, List.length_map]
  intro hcontra
  rw [hcontra] at hl
  have hlen : 0 < names.length := List.length_pos.mpr h
  simp at hl
  omega

lemma extract_head_top {sc : String → String → Nat} {q : String} {names : List String}
    (hb : ∀ n ∈ names, sc q n ≤ 100) (hex : ∃ n ∈ names, sc q n = 100) :
    ∃ p ∈ extract sc q names 5, p.2 = 100 := by
  obtain ⟨n0, hn0, hs0⟩ := hex
  have hmem : (n0, sc q n0) ∈ sortDescPairs (names.map (fun n => (n, sc q n))) := by
    rw [mem_sortDescPairs]
    exact List.mem_map.mpr ⟨n0, hn0, rfl⟩
  rcases hs : sortDescPairs (names.map (fun n => (n, sc q n))) with _ | ⟨h, t⟩
  · rw [hs] at hmem; exact absurd hmem (List.not_mem_nil _)
  · have hh : h ∈ names.map (fun n => (n, sc q n)) := by
      have : h ∈ sortDescPairs (names.map (fun n => (n, sc q n))) := by
        rw [hs]; exact List.mem_cons_self h t
      rwa [mem_sortDescPairs] at this
    rcases List.mem_map.mp hh with ⟨n1, hn1, hpn1⟩
    have hle : h.2 ≤ 100 := by
      rw [← hpn1]
      exact hb n1 hn1
    have hge : 100 ≤ h.2 := by
      have := sortDescPairs_head_ge _ h t hs (n0, sc q n0) (List.mem_map.mpr ⟨n0, hn0, rfl⟩)
      rw [hs0] at this
      exact this
    refine ⟨h, ?_, le_antisymm hle hge⟩
    unfold extract
    rw [hs, List.take_succ_cons]
    exact List.mem_cons_self h _

lemma dictLookup_mem {d : List (String × WAData)} {k : String} {v : WAData}
    (h : dictLookup d k = some v) : (k, v) ∈ d := by
  unfold dictLookup at h
  rcases hf : d.find? (fun p => p.1 = k) with _ | p
  · rw [hf] at h
    exact absurd h (by simp)
  · have hmem := List.mem_of_find?_eq_some hf
    have hkey := List.find?_some hf
    rw [hf] at h
    rcases p with ⟨a, b⟩
    have ha : a = k := by simpa using hkey
    have hb : b = v := by simpa using h
    subst ha
    subst hb
    exact hmem

lemma keys_nodup_lookup :
    ∀ (d : List (String × WAData)) (k : String) (v : WAData),
      (d.map (fun p => p.1)).Nodup → (k, v) ∈ d → dictLookup d k = some v := by
  intro d
  induction d with
  | nil => intro k v _ hmem; exact absurd hmem (List.not_mem_nil _)
  | cons p ps ih =>
    intro k v hnd hmem
    rw [List.map_cons, List.nodup_cons] at hnd
    rcases List.mem_cons.mp hmem with hpv | hmem'
    · unfold dictLookup
      rw [List.find?_cons_of_pos _ (by rw [← hpv]; simp)]
      simp [← hpv]
    · have hne : p.1 ≠ k := by
        intro hcontra
        exact hnd.1 (hcontra ▸ List.mem_map.mpr ⟨(k, v), hmem', rfl⟩)
      unfold dictLookup
      rw [List.find?_cons_of_neg _ (by simpa using hne)]
      exact ih k v hnd.2 hmem'

lemma dictInsert_keys_subset {d : List (String × WAData)} {k : String} {v : WAData}
    {k' : String} {v' : WAData} (h : (k', v') ∈ dictInsert d k v) :
    (∃ u, (k', u) ∈ d) ∨ k' = k := by
  unfold dictInsert at h
  by_cases hc : d.any (fun p => p.1 = k) = true
  · rw [if_pos hc] at h
    rcases List.mem_map.mp h with ⟨p, hp, hpe⟩
    by_cases hpk : p.1 = k
    · rw [if_pos hpk] at hpe
      right
      exact (congrArg Prod.fst hpe).symm
    · rw [if_neg hpk] at hpe
      left
      exact ⟨v', by rw [hpe] at hp; exact hp⟩
  · rw [if_neg hc] at h
    rcases List.mem_append.mp h with h1 | h2
    · exact Or.inl ⟨v', h1⟩
    · right
      simp at h2
      exact h2.1

lemma buildDict_key_mem :
    ∀ (rows : List WARow) (acc : List (String × WAData)) (k : String) (v : WAData),
      (k, v) ∈ rows.foldl (fun d r => dictInsert d r.name ⟨r.ID, r.birthDate⟩) acc →
      (∃ u, (k, u) ∈ acc) ∨ k ∈ namesList rows := by
  intro rows
  induction rows with
  | nil => intro acc k v h; exact Or.inl ⟨v, h⟩
  | cons r rs ih =>
    intro acc k v h
    rw [List.foldl_cons] at h
    rcases ih _ k v h with ⟨u, hu⟩ | hnames
    · rcases dictInsert_keys_subset hu with ⟨u', hu'⟩ | hk
      · exact Or.inl ⟨u', hu'⟩
      · right
        rw [hk]
        exact List.mem_map.mpr ⟨r, List.mem_cons_self r rs, rfl⟩
    · right
      unfold namesList at hnames ⊢
      rw [List.map_cons]
      exact List.mem_cons_of_mem _ hnames

lemma dictInsert_keys_nodup {d : List (String × WAData)} {k : String} {v : WAData}
    (h : (d.map (fun p => p.1)).Nodup) :
    ((dictInsert d k v).map (fun p => p.1)).Nodup := by
  unfold dictInsert
  by_cases hc : d.any (fun p => p.1 = k) = true
  · rw [if_pos hc]
    have heq : (d.map (fun p => if p.1 = k then (k, v) else p)).map (fun p => p.1)
        = d.map (fun p => p.1) := by
      rw [List.map_map]
      apply List.map_congr_left
      intro p _
      by_cases hpk : p.1 = k
      · simp [hpk]
      · simp [hpk]
    rw [heq]
    exact h
  · rw [if_neg hc]
    rw [List.map_append]
    simp only [List.map_cons, List.map_nil]
    rw [List.nodup_append]
    refine ⟨h, List.nodup_singleton k, ?_⟩
    intro a ha hb
    simp at hb
    subst hb
    rcases List.mem_map.mp ha with ⟨p, hp, hpk⟩
    rw [Bool.not_eq_true] at hc
    have := List.any_eq_false.mp hc p hp
    simp [hpk] at this

lemma buildDict_keys_nodup (rows : List WARow) :
    ((buildDict rows).map (fun p => p.1)).Nodup := by
  unfold buildDict
  suffices h : ∀ (rows : List WARow) (acc : List (String × WAData)),
      (acc.map (fun p => p.1)).Nodup →
      ((rows.foldl (fun d r => dictInsert d r.name ⟨r.ID, r.birthDate⟩) acc).map
        (fun p => p.1)).Nodup by
    exact h rows [] (by simp)
  intro rows
  induction rows with
  | nil => intro acc h; exact h
  | cons r rs ih =>
    intro acc h
    rw [List.foldl_cons]
    exact ih _ (dictInsert_keys_nodup h)

lemma find?_map_replace (k : String) (v : WAData) :
    ∀ d : List (String × WAData), d.any (fun p => p.1 = k) = true →
      (d.map (fun p => if p.1 = k then (k, v) else p)).find? (fun p => p.1 = k)
        = some (k, v) := by
  intro d
  induction d with
  | nil => intro h; simp at h
  | cons p ps ih =>
    intro h
    rw [List.map_cons]
    by_cases hpk : p.1 = k
    · rw [if_pos hpk]
      rw [List.find?_cons_of_pos _ (by simp)]
    · rw [if_neg hpk]
      rw [List.find?_cons_of_neg _ (by simpa using hpk)]
      apply ih
      rw [List.any_cons] at h
      simpa [hpk] using h

lemma find?_map_replace_ne (k kq : String) (v : WAData) (hne : kq ≠ k) :
    ∀ d : List (String × WAData),
      (d.map (fun p => if p.1 = k then (k, v) else p)).find? (fun p => p.1 = kq)
        = d.find? (fun p => p.1 = kq) := by
  intro d
  induction d with
  | nil => simp
  | cons p ps ih =>
    rw [List.map_cons]
    by_cases hpk : p.1 = k
    · rw [if_pos hpk]
      have h1 : ¬ ((k, v).1 = kq) := by
        intro hcontra
        exact hne (by simpa using hcontra.symm)
      have h2 : ¬ (p.1 = kq) := by
        rw [hpk]
        intro hcontra
        exact hne hcontra.symm
      rw [List.find?_cons_of_neg _ (by simpa using h1)]
      rw [List.find?_cons_of_neg _ (by simpa using h2)]
      exact ih
    · rw [if_neg hpk]
      by_cases hq : p.1 = kq
      · rw [List.find?_cons_of_pos _ (by simpa using hq)]
        rw [List.find?_cons_of_pos _ (by simpa using hq)]
      · rw [List.find?_cons_of_neg _ (by simpa using hq)]
        rw [List.find?_cons_of_neg _ (by simpa using hq)]
        exact ih

lemma dictLookup_dictInsert_self (d : List (String × WAData)) (k : String) (v : WAData) :
    dictLookup (dictInsert d k v) k = some v := by
  unfold dictInsert dictLookup
  by_cases hc : d.any (fun p => p.1 = k) = true
  · rw [if_pos hc]
    rw [find?_map_replace k v d hc]
    rfl
  · rw [if_neg hc]
    rw [List.find?_append]
    have hall : d.find? (fun p => p.1 = k) = none := by
      rw [List.find?_eq_none]
      intro p hp
      rw [Bool.not_eq_true] at hc
      have := List.any_eq_false.mp hc p hp
      simpa using this
    rw [hall]
    simp

lemma dictLookup_dictInsert_ne (d : List (String × WAData)) (k kq : String)
    (v : WAData) (hne : kq ≠ k) :
    dictLookup (dictInsert d k v) kq = dictLookup d kq := by
  unfold dictInsert dictLookup
  by_cases hc : d.any (fun p => p.1 = k) = true
  · rw [if_pos hc]
    rw [find?_map_replace_ne k kq v hne d]
  · rw [if_neg hc]
    rw [List.find?_append]
    have hsingle : ([(k, v)].find? (fun p => p.1 = kq)) = none := by
      rw [List.find?_eq_none]
      intro p hp
      simp at hp
      subst hp
      simpa using fun hcontra => hne hcontra.symm
    rw [hsingle]
    simp

lemma foldl_dictInsert_lookup :
    ∀ (rows : List WARow) (acc : List (String × WAData)) (n : String),
      dictLookup (rows.foldl (fun d r => dictInsert d r.name ⟨r.ID, r.birthDate⟩) acc) n =
        Option.or ((rows.reverse.find? (fun r => r.name = n)).map
          (fun r => (⟨r.ID, r.birthDate⟩ : WAData))) (dictLookup acc n) := by
  intro rows
  induction rows with
  | nil => intro acc n; simp
  | cons r rs ih =>
    intro acc n
    rw [List.foldl_cons, ih, List.reverse_cons, List.find?_append]
    rcases hfind : rs.reverse.find? (fun r => r.name = n) with _ | rp
    · rw [hfind]
      by_cases hrn : r.name = n
      · rw [List.find?_cons_of_pos _ (by simpa using hrn)]
        rw [← hrn, dictLookup_dictInsert_self]
        rfl
      · rw [List.find?_cons_of_neg _ (by simpa using hrn)]
        rw [dictLookup_dictInsert_ne _ _ _ _ (fun hcontra => hrn hcontra.symm)]
        rfl
    · rw [hfind]
      rfl

lemma buildDict_lookup_last (rows : List WARow) (n : String) :
    dictLookup (buildDict rows) n =
      (rows.reverse.find? (fun r => r.name = n)).map
        (fun r => (⟨r.ID, r.birthDate⟩ : WAData)) := by
  unfold buildDict
  rw [foldl_dictInsert_lookup]
  have hnil : dictLookup [] n = none := rfl
  rw [hnil, Option.or_none]

lemma buildDict_lookup_isSome {rows : List WARow} {n : String} (h : n ∈ namesList rows) :
    (dictLookup (buildDict rows) n).isSome = true := by
  rw [buildDict_lookup_last]
  have hfs : (rows.reverse.find? (fun r => r.name = n)).isSome = true := by
    rw [List.find?_isSome]
    rcases List.mem_map.mp h with ⟨r, hr, hrn⟩
    exact ⟨r, List.mem_reverse.mpr hr, by simpa using hrn⟩
  rcases Option.isSome_iff_exists.mp hfs with ⟨rp, hrp⟩
  rw [hrp]
  rfl


/-!
Strategy-level scan lemmas and the claims about the two strategies.
-/

lemma bf_sound {sc : String → String → Nat} {qbd : Option String} {name : String}
    {d : List (String × WAData)} {m : ScoredMatch}
    (h : find_best_match_birth_first sc qbd name d = some m) :
    ∃ p ∈ extract sc name ((birthCandidates qbd d).map (fun p => p.1)) 5,
      m = mkScoredBF (birthCandidates qbd d) p := by
  unfold find_best_match_birth_first at h
  by_cases hc : (birthCandidates qbd d).isEmpty
  · rw [if_pos hc] at h
    exact absurd h (by simp)
  · rw [if_neg hc] at h
    rcases bestStep_foldl_sound _ _ _ _ _ h with h1 | hex
    · exact absurd h1 (by simp)
    · exact hex

lemma nf_sound {sc : String → String → Nat} {q : String} {qbd : Option String}
    {names : List String} {d : List (String × WAData)} {m : ScoredMatch}
    (h : find_best_match_name_first sc q qbd names d = some m) :
    ∃ p ∈ extract sc q names 5, m = mkScored qbd d p := by
  unfold find_best_match_name_first at h
  rcases bestStep_foldl_sound _ _ _ _ _ h with h1 | hex
  · exact absurd h1 (by simp)
  · exact hex

lemma bf_combined_formula {sc : String → String → Nat} {qbd : Option String}
    {name : String} {d : List (String × WAData)} {m : ScoredMatch}
    (h : find_best_match_birth_first sc qbd name d = some m) :
    m.birthDateScore = 100 ∧
      m.combinedScore = 7/10 * 100 + 3/10 * (m.nameScore : ℚ) := by
  rcases bf_sound h with ⟨p, _, hm⟩
  subst hm
  exact ⟨rfl, rfl⟩

lemma nf_combined_formula {sc : String → String → Nat} {q : String} {qbd : Option String}
    {names : List String} {d : List (String × WAData)} {m : ScoredMatch}
    (h : find_best_match_name_first sc q qbd names d = some m) :
    m.combinedScore = combinedOf qbd m.matchedBirthDate m.nameScore := by
  rcases nf_sound h with ⟨p, _, hm⟩
  subst hm
  rfl

def rows1c : List WARow := [⟨"Xyz", 7, some "2000-01-01"⟩]

/-- Claim C1, corrected: in the attribute-first strategy the code weights
the fixed attribute score 100 with 0.7 and the name score with 0.3
(`combined = 0.7*100 + 0.3*name_score`), not the other way around. -/
theorem C1_attr_first_weighting (sc : String → String → Nat) (bd : String)
    (name : String) (d : List (String × WAData)) (m : ScoredMatch)
    (h : find_best_match_birth_first sc (some bd) name d = some m) :
    m.birthDateScore = 100 ∧
      m.combinedScore = 7/10 * (m.birthDateScore : ℚ) + 3/10 * (m.nameScore : ℚ) := by
  rcases bf_combined_formula h with ⟨h1, h2⟩
  refine ⟨h1, ?_⟩
  rw [h2, h1]
  norm_num

def M1w : ScoredMatch := ⟨"Ann", 5, some "1990-02-03", 100, 100, 100⟩

theorem C1_attr_first_weighting_witness :
    find_best_match_birth_first tokenSortRatio (some "1990-02-03") "Ann"
        (buildDict [⟨"Ann", 5, some "1990-02-03"⟩]) = some M1w ∧
      M1w.birthDateScore = 100 ∧
      M1w.combinedScore = 7/10 * (M1w.birthDateScore : ℚ) + 3/10 * (M1w.nameScore : ℚ) := by
  have hsc : tokenSortRatio "Ann" "Ann" = 100 := by decide
  have heq : find_best_match_birth_first tokenSortRatio (some "1990-02-03") "Ann"
      (buildDict [⟨"Ann", 5, some "1990-02-03"⟩]) = some M1w := by
    simp [find_best_match_birth_first, birthCandidates, buildDict, dictInsert, extract,
      sortDescPairs, insertDesc, bestStep, bfValue, mkScoredBF, dictLookup, M1w, hsc]
    norm_num
  exact ⟨heq, C1_attr_first_weighting tokenSortRatio _ _ _ _ heq⟩

/-- Claim C1 counterexample: a candidate with name score 0 from a
birth-date-filtered pool gets combined score 70, not the claimed
`0.7*name_score + 0.3*100 = 30`. -/
theorem C1_attr_first_weighting_counterexample :
    find_best_match_birth_first tokenSortRatio (some "2000-01-01") "Abc"
        (buildDict rows1c) = some ⟨"Xyz", 7, some "2000-01-01", 0, 100, 70⟩ ∧
      (70 : ℚ) ≠ 7/10 * (0 : ℚ) + 3/10 * (100 : ℚ) := by
  constructor
  · have hsc : tokenSortRatio "Abc" "Xyz" = 0 := by decide
    simp [find_best_match_birth_first, birthCandidates, buildDict, dictInsert, extract,
      sortDescPairs, insertDesc, bestStep, bfValue, mkScoredBF, dictLookup, rows1c, hsc]
    norm_num
  · norm_num

/-- Claim C2, corrected: when the query's birth date matches no reference
birth date the attribute-first strategy returns no result at all; the code
has no fallback to the unfiltered pool (the full dict is used only when
the query's birth date is absent). -/
theorem C2_no_fallback_on_unmatched_birth (sc : String → String → Nat) (bd : String)
    (name : String) (d : List (String × WAData))
    (h : ∀ p ∈ d, p.2.birthDate ≠ some bd) :
    find_best_match_birth_first sc (some bd) name d = none := by
  have hcand : birthCandidates (some bd) d = [] := by
    unfold birthCandidates
    rw [List.filter_eq_nil_iff]
    intro p hp
    simpa using h p hp
  unfold find_best_match_birth_first
  rw [hcand]
  rfl

theorem C2_no_fallback_witness :
    (∀ p ∈ buildDict [⟨"Bob", 3, some "1980-05-05"⟩],
        p.2.birthDate ≠ some "1981-06-06") ∧
      find_best_match_birth_first tokenSortRatio (some "1981-06-06") "Bob"
        (buildDict [⟨"Bob", 3, some "1980-05-05"⟩]) = none := by
  have h : ∀ p ∈ buildDict [⟨"Bob", 3, some "1980-05-05"⟩],
      p.2.birthDate ≠ some "1981-06-06" := by decide
  exact ⟨h, C2_no_fallback_on_unmatched_birth tokenSortRatio _ _ _ h⟩

def rows2c : List WARow := [⟨"Xyz", 7, some "1999-01-01"⟩]

/-- Claim C2 counterexample: non-empty reference pool, query birth date
present but unmatched, and the attribute-first strategy returns `none`
instead of falling back to the full pool. -/
theorem C2_no_fallback_counterexample :
    buildDict rows2c ≠ [] ∧
      find_best_match_birth_first tokenSortRatio (some "2000-01-01") "Abc"
        (buildDict rows2c) = none := by
  constructor
  · decide
  · decide

/-- Claim C3, corrected: in the name-first strategy an absent birth date
on either side makes the combined score equal the name score exactly; in
the attribute-first strategy, however, every produced candidate is scored
`0.7*100 + 0.3*name_score`, also when the query's birth date is absent
and the unfiltered pool is used. -/
theorem C3_absence_degradation :
    (∀ (sc : String → String → Nat) (q : String) (qbd : Option String)
        (names : List String) (d : List (String × WAData)) (m : ScoredMatch),
        find_best_match_name_first sc q qbd names d = some m →
        qbd = none ∨ m.matchedBirthDate = none →
        m.combinedScore = (m.nameScore : ℚ)) ∧
    (∀ (sc : String → String → Nat) (qbd : Option String) (name : String)
        (d : List (String × WAData)) (m : ScoredMatch),
        find_best_match_birth_first sc qbd name d = some m →
        m.combinedScore = 7/10 * 100 + 3/10 * (m.nameScore : ℚ)) := by
  constructor
  · intro sc q qbd names d m h habs
    rw [nf_combined_formula h]
    rcases habs with h1 | h2
    · rw [h1]
      rfl
    · rw [h2]
      cases qbd <;> rfl
  · intro sc qbd name d m h
    exact (bf_combined_formula h).2

def rows3w : List WARow := [⟨"Cara", 9, none⟩]

def M3w : ScoredMatch := ⟨"Cara", 9, none, 100, 0, 100⟩

theorem C3_absence_degradation_witness :
    find_best_match_name_first tokenSortRatio "Cara" (some "1999-09-09")
        (namesList rows3w) (buildDict rows3w) = some M3w ∧
      ((some "1999-09-09" : Option String) = none ∨ M3w.matchedBirthDate = none) ∧
      M3w.combinedScore = (M3w.nameScore : ℚ) := by
  have hsc : tokenSortRatio "Cara" "Cara" = 100 := by decide
  have heq : find_best_match_name_first tokenSortRatio "Cara" (some "1999-09-09")
      (namesList rows3w) (buildDict rows3w) = some M3w := by
    simp [find_best_match_name_first, namesList, buildDict, dictInsert, extract,
      sortDescPairs, insertDesc, bestStep, nfValue, mkScored, combinedOf, bdScoreOf,
      dictLookup, rows3w, M3w, hsc]
  exact ⟨heq, Or.inr rfl,
    C3_absence_degradation.1 tokenSortRatio _ _ _ _ _ heq (Or.inr rfl)⟩

def rows3c : List WARow := [⟨"Xyz", 7, some "1999-01-01"⟩]

def M3c : ScoredMatch := ⟨"Xyz", 7, some "1999-01-01", 0, 100, 70⟩

/-- Claim C3 counterexample: query birth date absent, yet the
attribute-first candidate's combined score is 70, not its name score 0. -/
theorem C3_absence_degradation_counterexample :
    find_best_match_birth_first tokenSortRatio none "Abc" (buildDict rows3c)
        = some M3c ∧ M3c.combinedScore ≠ (M3c.nameScore : ℚ) := by
  constructor
  · have hsc : tokenSortRatio "Abc" "Xyz" = 0 := by decide
    simp [find_best_match_birth_first, birthCandidates, buildDict, dictInsert, extract,
      sortDescPairs, insertDesc, bestStep, bfValue, mkScoredBF, dictLookup, rows3c,
      M3c, hsc]
    norm_num
  · simp [M3c]

/-- Claim C10, confirmed: whenever the attribute-first strategy returns a
result its combined score is `0.7*100 + 0.3*name_score`, hence between 70
and 100 (given a 0..100 similarity backend), also when the query birth
date is absent and the full pool is scanned. -/
theorem C10_attr_first_range (sc : String → String → Nat) (qbd : Option String)
    (name : String) (d : List (String × WAData)) (m : ScoredMatch)
    (hb : ∀ p ∈ d, sc name p.1 ≤ 100)
    (h : find_best_match_birth_first sc qbd name d = some m) :
    70 ≤ m.combinedScore ∧ m.combinedScore ≤ 100 ∧
      m.combinedScore = 7/10 * 100 + 3/10 * (m.nameScore : ℚ) := by
  have hfor := bf_combined_formula h
  rcases bf_sound h with ⟨p, hp, hm⟩
  have hmem := mem_extract hp
  have hple : p.2 ≤ 100 := by
    rcases hmem with ⟨hmemn, hsc⟩
    rcases List.mem_map.mp hmemn with ⟨pp, hpp, hppe⟩
    have hpd : pp ∈ d := by
      unfold birthCandidates at hpp
      cases qbd
      · exact hpp
      · exact List.mem_of_mem_filter hpp
    rw [hsc, ← hppe]
    exact hb pp hpd
  have hns : m.nameScore = p.2 := by rw [hm]; rfl
  have h0 : (0 : ℚ) ≤ (m.nameScore : ℚ) := Nat.cast_nonneg _
  have h100 : (m.nameScore : ℚ) ≤ 100 := by
    rw [hns]
    exact_mod_cast hple
  refine ⟨?_, ?_, hfor.2⟩
  · rw [hfor.2]
    linarith
  · rw [hfor.2]
    linarith

def rows10w : List WARow := [⟨"Dia", 4, none⟩]

def M10w : ScoredMatch := ⟨"Dia", 4, none, 100, 100, 100⟩

theorem C10_attr_first_range_witness :
    (∀ p ∈ buildDict rows10w, tokenSortRatio "Dia" p.1 ≤ 100) ∧
      find_best_match_birth_first tokenSortRatio none "Dia" (buildDict rows10w)
        = some M10w ∧
      (70 ≤ M10w.combinedScore ∧ M10w.combinedScore ≤ 100 ∧
        M10w.combinedScore = 7/10 * 100 + 3/10 * (M10w.nameScore : ℚ)) := by
  have hb : ∀ p ∈ buildDict rows10w, tokenSortRatio "Dia" p.1 ≤ 100 := by decide
  have heq : find_best_match_birth_first tokenSortRatio none "Dia" (buildDict rows10w)
      = some M10w := by
    have hsc : tokenSortRatio "Dia" "Dia" = 100 := by decide
    simp [find_best_match_birth_first, birthCandidates, buildDict, dictInsert, extract,
      sortDescPairs, insertDesc, bestStep, bfValue, mkScoredBF, dictLookup, rows10w,
      M10w, hsc]
    norm_num
  exact ⟨hb, heq, C10_attr_first_range tokenSortRatio _ _ _ _ hb heq⟩

/-!
Consensus, classification, backend averaging and dict-shadowing claims.
-/

/-- Claim C5, confirmed: the cross-strategy consensus averages the two
scores when both strategies name the same id (so the result lies between
them), scales the maximum by 0.9 and keeps the strictly higher-scoring
strategy's match when the ids differ, and passes a lone result through
unchanged. -/
theorem C5_consensus_rule :
    (∀ b1 b2 : ScoredMatch, b1.matchedID = b2.matchedID →
        combineResults (some b1) (some b2)
            = (some b1, some ((b1.combinedScore + b2.combinedScore) / 2)) ∧
          min b1.combinedScore b2.combinedScore
              ≤ (b1.combinedScore + b2.combinedScore) / 2 ∧
          (b1.combinedScore + b2.combinedScore) / 2
              ≤ max b1.combinedScore b2.combinedScore) ∧
    (∀ b1 b2 : ScoredMatch, b1.matchedID ≠ b2.matchedID →
        (combineResults (some b1) (some b2)).2
            = some (max b1.combinedScore b2.combinedScore * (9/10)) ∧
          (b2.combinedScore < b1.combinedScore →
            (combineResults (some b1) (some b2)).1 = some b1) ∧
          (b1.combinedScore < b2.combinedScore →
            (combineResults (some b1) (some b2)).1 = some b2)) ∧
    (∀ b1 : ScoredMatch,
        combineResults (some b1) none = (some b1, some b1.combinedScore)) ∧
    (∀ b2 : ScoredMatch,
        combineResults none (some b2) = (some b2, some b2.combinedScore)) := by
  refine ⟨?_, ?_, fun b1 => rfl, fun b2 => rfl⟩
  · intro b1 b2 hid
    have hred : combineResults (some b1) (some b2)
        = if b1.matchedID = b2.matchedID then
            (some b1, some ((b1.combinedScore + b2.combinedScore) / 2))
          else if b1.combinedScore ≥ b2.combinedScore then
            (some b1, some (b1.combinedScore * (9/10)))
          else (some b2, some (b2.combinedScore * (9/10))) := rfl
    rw [hred, if_pos hid]
    refine ⟨rfl, ?_, ?_⟩
    · rcases le_total b1.combinedScore b2.combinedScore with hle | hle
      · rw [min_eq_left hle]
        linarith
      · rw [min_eq_right hle]
        linarith
    · rcases le_total b1.combinedScore b2.combinedScore with hle | hle
      · rw [max_eq_right hle]
        linarith
      · rw [max_eq_left hle]
        linarith
  · intro b1 b2 hid
    have hred : combineResults (some b1) (some b2)
        = if b1.matchedID = b2.matchedID then
            (some b1, some ((b1.combinedScore + b2.combinedScore) / 2))
          else if b1.combinedScore ≥ b2.combinedScore then
            (some b1, some (b1.combinedScore * (9/10)))
          else (some b2, some (b2.combinedScore * (9/10))) := rfl
    rw [hred, if_neg hid]
    by_cases hge : b1.combinedScore ≥ b2.combinedScore
    · rw [if_pos hge, max_eq_left hge]
      exact ⟨rfl, fun _ => rfl, fun hlt => absurd hge (not_le.mpr hlt)⟩
    · rw [if_neg hge]
      push_neg at hge
      rw [max_eq_right (le_of_lt hge)]
      exact ⟨rfl, fun hlt => absurd hlt (not_lt.mpr (le_of_lt hge)), fun _ => rfl⟩

def B51 : ScoredMatch := ⟨"P", 5, none, 92, 0, 92⟩

def B52 : ScoredMatch := ⟨"Q", 9, none, 88, 0, 88⟩

theorem C5_consensus_rule_witness :
    B51.matchedID ≠ B52.matchedID ∧
      (combineResults (some B51) (some B52)).2
        = some (max B51.combinedScore B52.combinedScore * (9/10)) := by
  have hne : B51.matchedID ≠ B52.matchedID := by decide
  exact ⟨hne, (C5_consensus_rule.2.1 B51 B52 hne).1⟩

/-- Claim C6, confirmed: for scores in [0, 100] the three confidence bands
partition the range with inclusive lower boundaries at 90 and 70, the
`recommended` flag is set exactly from 70 up, while `recommended_id` is
populated exactly from 90 up (the stricter two-tier gate). -/
theorem C6_confidence_bands (s : ℚ) (h0 : 0 ≤ s) (h1 : s ≤ 100) :
    (confidenceOf s = Confidence.High ↔ 90 ≤ s) ∧
    (confidenceOf s = Confidence.Medium ↔ 70 ≤ s ∧ s < 90) ∧
    (confidenceOf s = Confidence.Low ↔ s < 70) ∧
    (recommendedOf s = true ↔ 70 ≤ s) ∧
    (∀ wid : Nat, recommendedIdOf s wid = some wid ↔ 90 ≤ s) ∧
    (∀ wid : Nat, recommendedIdOf s wid = none ↔ s < 90) := by
  by_cases h90 : s ≥ 90
  · have hc : confidenceOf s = Confidence.High := by
      unfold confidenceOf
      rw [if_pos h90]
    have hr : recommendedOf s = true := by
      unfold recommendedOf
      rw [if_pos h90]
    have hi : ∀ wid : Nat, recommendedIdOf s wid = some wid := fun wid => by
      unfold recommendedIdOf
      rw [if_pos h90]
    rw [hc, hr]
    refine ⟨iff_of_true rfl h90,
      iff_of_false (by decide) (fun h => absurd h90 (not_le.mpr h.2)),
      iff_of_false (by decide) (not_lt.mpr (by linarith)),
      iff_of_true rfl (by linarith), ?_, ?_⟩
    · intro wid
      rw [hi wid]
      exact iff_of_true rfl h90
    · intro wid
      rw [hi wid]
      exact iff_of_false (by simp) (not_lt.mpr h90)
  · push_neg at h90
    by_cases h70 : s ≥ 70
    · have hc : confidenceOf s = Confidence.Medium := by
        unfold confidenceOf
        rw [if_neg (not_le.mpr h90), if_pos h70]
      have hr : recommendedOf s = true := by
        unfold recommendedOf
        rw [if_neg (not_le.mpr h90), if_pos h70]
      have hi : ∀ wid : Nat, recommendedIdOf s wid = none := fun wid => by
        unfold recommendedIdOf
        rw [if_neg (not_le.mpr h90)]
      rw [hc, hr]
      refine ⟨iff_of_false (by decide) (not_le.mpr h90),
        iff_of_true rfl ⟨h70, h90⟩,
        iff_of_false (by decide) (not_lt.mpr h70),
        iff_of_true rfl h70, ?_, ?_⟩
      · intro wid
        rw [hi wid]
        exact iff_of_false (by simp) (not_le.mpr h90)
      · intro wid
        rw [hi wid]
        exact iff_of_true rfl h90
    · push_neg at h70
      have hc : confidenceOf s = Confidence.Low := by
        unfold confidenceOf
        rw [if_neg (not_le.mpr h90), if_neg (not_le.mpr h70)]
      have hr : recommendedOf s = false := by
        unfold recommendedOf
        rw [if_neg (not_le.mpr h90), if_neg (not_le.mpr h70)]
      have hi : ∀ wid : Nat, recommendedIdOf s wid = none := fun wid => by
        unfold recommendedIdOf
        rw [if_neg (not_le.mpr h90)]
      rw [hc, hr]
      refine ⟨iff_of_false (by decide) (not_le.mpr h90),
        iff_of_false (by decide) (fun h => absurd h.1 (not_le.mpr h70)),
        iff_of_true rfl h70,
        iff_of_false (by simp) (not_le.mpr h70), ?_, ?_⟩
      · intro wid
        rw [hi wid]
        exact iff_of_false (by simp) (not_le.mpr h90)
      · intro wid
        rw [hi wid]
        exact iff_of_true rfl h90

theorem C6_confidence_bands_witness :
    (0 : ℚ) ≤ 85 ∧ (85 : ℚ) ≤ 100 ∧
      (confidenceOf 85 = Confidence.Medium ↔ 70 ≤ (85 : ℚ) ∧ (85 : ℚ) < 90) := by
  refine ⟨by norm_num, by norm_num, ?_⟩
  exact (C6_confidence_bands 85 (by norm_num) (by norm_num)).2.1

/-- Claim C8, corrected: the cross-backend combination of fuzzymatch_3.py
is a plain average of whichever per-backend overall scores are present;
it never consults the backends' matched ids and applies no 0.9
disagreement penalty, so it agrees with the strategy-level consensus rule
only in the same-id case. -/
theorem C8_backend_average :
    (∀ a b : ℚ, avg_score (some a) (some b) = some ((a + b) / 2)) ∧
    (∀ a : ℚ, avg_score (some a) none = some a) ∧
    (∀ b : ℚ, avg_score none (some b) = some b) ∧
    avg_score none none = none ∧
    (∀ b1 b2 : ScoredMatch, b1.matchedID = b2.matchedID →
        (combineResults (some b1) (some b2)).2
          = avg_score (some b1.combinedScore) (some b2.combinedScore)) := by
  refine ⟨fun a b => rfl, fun a => rfl, fun b => rfl, rfl, ?_⟩
  intro b1 b2 hid
  have hred : combineResults (some b1) (some b2)
      = if b1.matchedID = b2.matchedID then
          (some b1, some ((b1.combinedScore + b2.combinedScore) / 2))
        else if b1.combinedScore ≥ b2.combinedScore then
          (some b1, some (b1.combinedScore * (9/10)))
        else (some b2, some (b2.combinedScore * (9/10))) := rfl
  rw [hred, if_pos hid]
  rfl

def B81 : ScoredMatch := ⟨"X", 4, none, 90, 0, 90⟩

def B82 : ScoredMatch := ⟨"Z", 4, none, 80, 0, 80⟩

theorem C8_backend_average_witness :
    B81.matchedID = B82.matchedID ∧
      (combineResults (some B81) (some B82)).2
        = avg_score (some B81.combinedScore) (some B82.combinedScore) := by
  have hid : B81.matchedID = B82.matchedID := by decide
  exact ⟨hid, C8_backend_average.2.2.2.2 B81 B82 hid⟩

def F81 : ScoredMatch := ⟨"X", 1, none, 100, 0, 100⟩

def F82 : ScoredMatch := ⟨"Y", 2, none, 60, 0, 60⟩

/-- Claim C8 counterexample: two backends disagreeing on the id with
scores 100 and 60 are combined to 80 (the plain average) by `avg_score`,
while the strategy-level consensus rule would give 0.9*100 = 90. -/
theorem C8_backend_average_counterexample :
    F81.matchedID ≠ F82.matchedID ∧
      avg_score (some F81.combinedScore) (some F82.combinedScore) = some 80 ∧
      (combineResults (some F81) (some F82)).2 = some 90 ∧
      (80 : ℚ) ≠ 90 := by
  refine ⟨by decide, ?_, ?_, by norm_num⟩
  · show some ((F81.combinedScore + F82.combinedScore) / 2) = some 80
    norm_num [F81, F82]
  · have hred : combineResults (some F81) (some F82)
        = if F81.matchedID = F82.matchedID then
            (some F81, some ((F81.combinedScore + F82.combinedScore) / 2))
          else if F81.combinedScore ≥ F82.combinedScore then
            (some F81, some (F81.combinedScore * (9/10)))
          else (some F82, some (F82.combinedScore * (9/10))) := rfl
    rw [hred, if_neg (by decide), if_pos (by norm_num [F81, F82])]
    norm_num [F81]

def lastRowFor (rows : List WARow) (n : String) : Option WARow :=
  rows.reverse.find? (fun r => r.name = n)

/-- Claim C9, confirmed: the registry dict holds one entry per canonical
name, always the data of the last registry row bearing that name, and
every best match the name-first strategy reports carries the id and birth
date of that last row; earlier duplicate rows are unreachable. -/
theorem C9_duplicate_names_last_wins :
    (∀ (rows : List WARow) (n : String),
        dictLookup (buildDict rows) n
          = (lastRowFor rows n).map (fun r => (⟨r.ID, r.birthDate⟩ : WAData))) ∧
    (∀ (sc : String → String → Nat) (rows : List WARow) (q : String)
        (qbd : Option String) (m : ScoredMatch),
        find_best_match_name_first sc q qbd (namesList rows) (buildDict rows) = some m →
        (lastRowFor rows m.matchedName).map (fun r => (⟨r.ID, r.birthDate⟩ : WAData))
          = some ⟨m.matchedID, m.matchedBirthDate⟩) := by
  constructor
  · intro rows n
    unfold lastRowFor
    exact buildDict_lookup_last rows n
  · intro sc rows q qbd m h
    rcases nf_sound h with ⟨p, hp, hm⟩
    have hmem := (mem_extract hp).1
    have hsome := buildDict_lookup_isSome hmem
    rcases Option.isSome_iff_exists.mp hsome with ⟨w, hw⟩
    have hname : m.matchedName = p.1 := by rw [hm]; rfl
    have hlast : (lastRowFor rows m.matchedName).map
        (fun r => (⟨r.ID, r.birthDate⟩ : WAData)) = some w := by
      unfold lastRowFor
      rw [hname, ← buildDict_lookup_last, hw]
    rw [hlast, hm]
    unfold mkScored
    rw [hw]
    rfl

def rows9 : List WARow := [⟨"Ali", 1, some "1999-01-01"⟩, ⟨"Ali", 2, some "2000-01-01"⟩]

def M9 : ScoredMatch := ⟨"Ali", 2, some "2000-01-01", 100, 0, 100⟩

theorem C9_duplicate_names_last_wins_witness :
    find_best_match_name_first tokenSortRatio "Ali" none (namesList rows9)
        (buildDict rows9) = some M9 ∧
      (lastRowFor rows9 M9.matchedName).map (fun r => (⟨r.ID, r.birthDate⟩ : WAData))
        = some ⟨M9.matchedID, M9.matchedBirthDate⟩ := by
  have hsc : tokenSortRatio "Ali" "Ali" = 100 := by decide
  have heq : find_best_match_name_first tokenSortRatio "Ali" none (namesList rows9)
      (buildDict rows9) = some M9 := by
    simp [find_best_match_name_first, namesList, buildDict, dictInsert, extract,
      sortDescPairs, insertDesc, bestStep, nfValue, mkScored, combinedOf, bdScoreOf,
      dictLookup, rows9, M9, hsc]
  exact ⟨heq, C9_duplicate_names_last_wins.2 tokenSortRatio rows9 "Ali" none M9 heq⟩

/-!
When a strategy returns no result.
-/

/-- Claim C4, corrected: a strategy can return no result even when the
full reference pool is non-empty.  The attribute-first strategy returns
`none` exactly when its candidate pool (birth-filtered when the query has
a birth date, the full dict otherwise) is empty; the name-first strategy
returns a result whenever one of its five extracted candidates has a
positive combined score, and returns `none` when every candidate scores
zero. -/
theorem C4_strategy_none_conditions :
    (∀ (sc : String → String → Nat) (qbd : Option String) (name : String)
        (d : List (String × WAData)),
        find_best_match_birth_first sc qbd name d = none ↔
          birthCandidates qbd d = []) ∧
    (∀ (sc : String → String → Nat) (q : String) (qbd : Option String)
        (names : List String) (d : List (String × WAData)),
        (∃ p ∈ extract sc q names 5, 0 < nfValue qbd d p) →
        (find_best_match_name_first sc q qbd names d).isSome = true) := by
  constructor
  · intro sc qbd name d
    constructor
    · intro hnone
      by_contra hne
      have hnames : (birthCandidates qbd d).map (fun p => p.1) ≠ [] := by
        intro hcontra
        exact hne (List.map_eq_nil_iff.mp hcontra)
      have hx := @extract_ne_nil sc name _ hnames
      rcases List.exists_mem_of_ne_nil _ hx with ⟨p, hp⟩
      have hpos : 0 < bfValue p := by
        unfold bfValue
        have : (0 : ℚ) ≤ (p.2 : ℚ) := Nat.cast_nonneg _
        linarith
      have hsome := bestStep_foldl_some_of_pos bfValue
        (mkScoredBF (birthCandidates qbd d))
        (extract sc name ((birthCandidates qbd d).map (fun p => p.1)) 5)
        (0, none) (le_refl 0) (fun h => absurd h (lt_irrefl 0)) ⟨p, hp, hpos⟩
      unfold find_best_match_birth_first at hnone
      rw [if_neg (by simpa [List.isEmpty_iff] using hne)] at hnone
      rw [hnone] at hsome
      exact absurd hsome (by simp)
    · intro hcand
      unfold find_best_match_birth_first
      rw [hcand]
      rfl
  · intro sc q qbd names d hex
    unfold find_best_match_name_first
    exact bestStep_foldl_some_of_pos _ _ _ (0, none) (le_refl 0)
      (fun h => absurd h (lt_irrefl 0)) hex

def rows4w : List WARow := [⟨"Eve", 6, none⟩]

theorem C4_strategy_none_conditions_witness :
    (∃ p ∈ extract tokenSortRatio "Eve" (namesList rows4w) 5,
        0 < nfValue none (buildDict rows4w) p) ∧
      (find_best_match_name_first tokenSortRatio "Eve" none (namesList rows4w)
        (buildDict rows4w)).isSome = true := by
  have hex : ∃ p ∈ extract tokenSortRatio "Eve" (namesList rows4w) 5,
      0 < nfValue none (buildDict rows4w) p := by
    refine ⟨("Eve", 100), by decide, ?_⟩
    norm_num [nfValue, combinedOf, dictLookup, buildDict, dictInsert, rows4w]
  exact ⟨hex, C4_strategy_none_conditions.2 tokenSortRatio "Eve" none
    (namesList rows4w) (buildDict rows4w) hex⟩

def rows4c : List WARow := [⟨"Xyz", 7, none⟩]

/-- Claim C4 counterexample: a non-empty pool on which the name-first
strategy returns `none`: the only candidate has name similarity 0 and no
birth-date term, so its combined score 0 never beats the initial best
score 0. -/
theorem C4_strategy_none_conditions_counterexample :
    namesList rows4c ≠ [] ∧
      find_best_match_name_first tokenSortRatio "Abc" none (namesList rows4c)
        (buildDict rows4c) = none := by
  constructor
  · decide
  · have hsc : tokenSortRatio "Abc" "Xyz" = 0 := by decide
    simp [find_best_match_name_first, namesList, buildDict, dictInsert, extract,
      sortDescPairs, insertDesc, bestStep, nfValue, mkScored, combinedOf, bdScoreOf,
      dictLookup, rows4c, hsc]

/-!
The end-to-end exact-match identity claim.
-/

lemma combinedOf_lt_100 (qbd wbd : Option String) (s : Nat) (hs : s < 100) :
    combinedOf qbd wbd s < 100 := by
  have hsq : (s : ℚ) ≤ 99 := by
    have h99 : s ≤ 99 := by omega
    exact_mod_cast h99
  rcases qbd with _ | a
  · show (s : ℚ) < 100
    linarith
  · rcases wbd with _ | b
    · show (s : ℚ) < 100
      linarith
    · show 7/10 * (s : ℚ) + 3/10 * ((bdScoreOf (some a) (some b) : Nat) : ℚ) < 100
      have hbd : ((bdScoreOf (some a) (some b) : Nat) : ℚ) ≤ 100 := by
        have hh : bdScoreOf (some a) (some b) = if a = b then 100 else 0 := rfl
        rw [hh]
        split_ifs <;> norm_num
      linarith

lemma bdScoreOf_self (d : String) : bdScoreOf (some d) (some d) = 100 := by
  show (if d = d then 100 else 0) = 100
  rw [if_pos rfl]

lemma combinedOf_perfect (d : String) : combinedOf (some d) (some d) 100 = 100 := by
  show 7/10 * ((100 : Nat) : ℚ) + 3/10 * ((bdScoreOf (some d) (some d) : Nat) : ℚ) = 100
  rw [bdScoreOf_self]
  norm_num

lemma mkScored_eq (qbd : Option String) (dict : List (String × WAData))
    (p : String × Nat) (w : WAData) (hw : dictLookup dict p.1 = some w) :
    mkScored qbd dict p
      = ⟨p.1, w.ID, w.birthDate, p.2, bdScoreOf qbd w.birthDate,
          combinedOf qbd w.birthDate p.2⟩ := by
  simp only [mkScored]
  rw [hw]
  rfl

lemma mkScoredBF_eq (cands : List (String × WAData)) (p : String × Nat)
    (w : WAData) (hw : dictLookup cands p.1 = some w) :
    mkScoredBF cands p = ⟨p.1, w.ID, w.birthDate, p.2, 100, bfValue p⟩ := by
  simp only [mkScoredBF]
  rw [hw]
  rfl

lemma buildDict_keys_sub {rows : List WARow} {k : String} {v : WAData}
    (h : (k, v) ∈ buildDict rows) : k ∈ namesList rows := by
  unfold buildDict at h
  rcases buildDict_key_mem rows [] k v h with ⟨u, hu⟩ | hn
  · exact absurd hu (List.not_mem_nil _)
  · exact hn

lemma nf_reaches_perfect (sc : String → String → Nat) (q d : String)
    (rows : List WARow) (rec : WARow)
    (hmem : rec ∈ rows)
    (hb : ∀ r ∈ rows, sc q r.name ≤ 100)
    (hp : sc q rec.name = 100)
    (hu : ∀ r ∈ rows, r.name ≠ rec.name → sc q r.name < 100)
    (hlast : dictLookup (buildDict rows) rec.name = some ⟨rec.ID, some d⟩) :
    find_best_match_name_first sc q (some d) (namesList rows) (buildDict rows)
      = some ⟨rec.name, rec.ID, some d, 100, 100, 100⟩ := by
  have hb' : ∀ n ∈ namesList rows, sc q n ≤ 100 := by
    intro n hn
    rcases List.mem_map.mp hn with ⟨r, hr, hrn⟩
    rw [← hrn]
    exact hb r hr
  have hname100 : ∀ n ∈ namesList rows, sc q n = 100 → n = rec.name := by
    intro n hn h100
    rcases List.mem_map.mp hn with ⟨r, hr, hrn⟩
    by_contra hne
    have hr' : r.name ≠ rec.name := by
      rw [hrn]
      exact hne
    have := hu r hr hr'
    rw [hrn] at this
    omega
  have hval : nfValue (some d) (buildDict rows) (rec.name, 100) = 100 := by
    unfold nfValue
    rw [hlast]
    exact combinedOf_perfect d
  have hmk : mkScored (some d) (buildDict rows) (rec.name, 100)
      = (⟨rec.name, rec.ID, some d, 100, 100, 100⟩ : ScoredMatch) := by
    rw [mkScored_eq (some d) (buildDict rows) (rec.name, 100) ⟨rec.ID, some d⟩ hlast]
    dsimp only
    rw [bdScoreOf_self, combinedOf_perfect d]
  unfold find_best_match_name_first
  apply bestStep_foldl_top _ _ _ _ (0, none) (by norm_num)
    (by intro h; exact absurd h (by norm_num))
  · intro p hpe
    rcases mem_extract hpe with ⟨hp1, hp2⟩
    by_cases h100 : sc q p.1 = 100
    · have hpn : p.1 = rec.name := hname100 p.1 hp1 h100
      have hpp : p = (rec.name, 100) := Prod.ext hpn (hp2.trans h100)
      rw [hpp]
      exact ⟨le_of_eq hval, fun _ => hmk⟩
    · have hlt : sc q p.1 < 100 := lt_of_le_of_ne (hb' p.1 hp1) h100
      have hplt : p.2 < 100 := by
        rw [hp2]
        exact hlt
      have hvlt : nfValue (some d) (buildDict rows) p < 100 :=
        combinedOf_lt_100 _ _ _ hplt
      exact ⟨le_of_lt hvlt, fun hc => absurd (hc ▸ hvlt) (lt_irrefl _)⟩
  · left
    have hnm : rec.name ∈ namesList rows := List.mem_map.mpr ⟨rec, hmem, rfl⟩
    rcases extract_head_top hb' ⟨rec.name, hnm, hp⟩ with ⟨p, hpe, hp100⟩
    refine ⟨p, hpe, ?_⟩
    rcases mem_extract hpe with ⟨hp1, hp2⟩
    have hpn : p.1 = rec.name := hname100 p.1 hp1 (by rw [← hp2]; exact hp100)
    have hpp : p = (rec.name, 100) := Prod.ext hpn hp100
    rw [hpp]
    exact hval

lemma bf_reaches_perfect (sc : String → String → Nat) (q d : String)
    (rows : List WARow) (rec : WARow)
    (hb : ∀ r ∈ rows, sc q r.name ≤ 100)
    (hp : sc q rec.name = 100)
    (hu : ∀ r ∈ rows, r.name ≠ rec.name → sc q r.name < 100)
    (hlast : dictLookup (buildDict rows) rec.name = some ⟨rec.ID, some d⟩) :
    find_best_match_birth_first sc (some d) q (buildDict rows)
      = some ⟨rec.name, rec.ID, some d, 100, 100, 100⟩ := by
  have hdictmem : (rec.name, (⟨rec.ID, some d⟩ : WAData)) ∈ buildDict rows :=
    dictLookup_mem hlast
  have hcmem : (rec.name, (⟨rec.ID, some d⟩ : WAData))
      ∈ birthCandidates (some d) (buildDict rows) := by
    unfold birthCandidates
    exact List.mem_filter.mpr ⟨hdictmem, by simp⟩
  have hnmem : rec.name
      ∈ (birthCandidates (some d) (buildDict rows)).map (fun p => p.1) :=
    List.mem_map.mpr ⟨_, hcmem, rfl⟩
  have hkeysub : ∀ n ∈ (birthCandidates (some d) (buildDict rows)).map (fun p => p.1),
      n ∈ namesList rows := by
    intro n hn
    rcases List.mem_map.mp hn with ⟨pp, hpp, hppe⟩
    have hpd : pp ∈ buildDict rows := by
      unfold birthCandidates at hpp
      exact List.mem_of_mem_filter hpp
    rcases pp with ⟨kk, vv⟩
    rw [← hppe]
    exact buildDict_keys_sub hpd
  have hb'' : ∀ n ∈ (birthCandidates (some d) (buildDict rows)).map (fun p => p.1),
      sc q n ≤ 100 := by
    intro n hn
    rcases List.mem_map.mp (hkeysub n hn) with ⟨r, hr, hrn⟩
    rw [← hrn]
    exact hb r hr
  have hn100 : ∀ n ∈ (birthCandidates (some d) (buildDict rows)).map (fun p => p.1),
      sc q n = 100 → n = rec.name := by
    intro n hn h100
    rcases List.mem_map.mp (hkeysub n hn) with ⟨r, hr, hrn⟩
    by_contra hne
    have hr' : r.name ≠ rec.name := by
      rw [hrn]
      exact hne
    have := hu r hr hr'
    rw [hrn] at this
    omega
  have hlookc : dictLookup (birthCandidates (some d) (buildDict rows)) rec.name
      = some ⟨rec.ID, some d⟩ := by
    apply keys_nodup_lookup
    · have hnd := buildDict_keys_nodup rows
      unfold birthCandidates
      exact List.Nodup.sublist (List.Sublist.map _ (List.filter_sublist _)) hnd
    · exact hcmem
  have hmk : mkScoredBF (birthCandidates (some d) (buildDict rows)) (rec.name, 100)
      = (⟨rec.name, rec.ID, some d, 100, 100, 100⟩ : ScoredMatch) := by
    rw [mkScoredBF_eq (birthCandidates (some d) (buildDict rows)) (rec.name, 100)
      ⟨rec.ID, some d⟩ hlookc]
    dsimp only
    have hbv : bfValue (rec.name, 100) = 100 := by
      unfold bfValue
      norm_num
    rw [hbv]
  unfold find_best_match_birth_first
  rw [if_neg (by
    simp only [List.isEmpty_iff]
    exact List.ne_nil_of_mem hcmem)]
  apply bestStep_foldl_top _ _ _ _ (0, none) (by norm_num)
    (by intro h; exact absurd h (by norm_num))
  · intro p hpe
    rcases mem_extract hpe with ⟨hp1, hp2⟩
    by_cases h100 : sc q p.1 = 100
    · have hpn : p.1 = rec.name := hn100 p.1 hp1 h100
      have hpp : p = (rec.name, 100) := Prod.ext hpn (hp2.trans h100)
      rw [hpp]
      constructor
      · show bfValue (rec.name, 100) ≤ 100
        unfold bfValue
        norm_num
      · intro _
        exact hmk
    · have hlt : sc q p.1 < 100 := lt_of_le_of_ne (hb'' p.1 hp1) h100
      have hplt : p.2 < 100 := by
        rw [hp2]
        exact hlt
      have hbv : bfValue p < 100 := by
        unfold bfValue
        have hle : (p.2 : ℚ) ≤ 99 := by
          have h99 : p.2 ≤ 99 := by omega
          exact_mod_cast h99
        linarith
      exact ⟨le_of_lt hbv, fun hc => absurd (hc ▸ hbv) (lt_irrefl _)⟩
  · left
    rcases extract_head_top hb'' ⟨rec.name, hnmem, hp⟩ with ⟨p, hpe, hp100⟩
    refine ⟨p, hpe, ?_⟩
    unfold bfValue
    rw [hp100]
    norm_num

lemma pickBetter_same (m : ScoredMatch) : pickBetter (some m) (some m) = some m := by
  show (if m.combinedScore ≥ m.combinedScore then some m else some m) = some m
  rw [if_pos (le_refl _)]

lemma combineResults_some_some (b1 b2 : ScoredMatch) :
    combineResults (some b1) (some b2)
      = if b1.matchedID = b2.matchedID then
          (some b1, some ((b1.combinedScore + b2.combinedScore) / 2))
        else if b1.combinedScore ≥ b2.combinedScore then
          (some b1, some (b1.combinedScore * (9/10)))
        else (some b2, some (b2.combinedScore * (9/10))) := rfl

/-- Claim C7, corrected: exact-match identity holds when the matched
record is the unique pool entry whose name attains similarity 100 against
the query (in both orientations, which the token-sorting backend
guarantees when one orientation equals the canonical name) and its dict
entry is its own data (it is the last row with its name).  Then the
pipeline yields final score 100, band High, recommended, and
recommended_id that record's id.  Without the uniqueness proviso a
token-permuted record tying at 100 can be reported instead. -/
theorem C7_exact_match_identity (sc : String → String → Nat) (A : Athlete)
    (rows : List WARow) (rec : WARow) (d : String)
    (hmem : rec ∈ rows)
    (hqb : A.birthDate = some d)
    (hrb : rec.birthDate = some d)
    (horient : fullName A = rec.name ∨ fullNameReversed A = rec.name)
    (hbound : ∀ r ∈ rows, sc (fullName A) r.name ≤ 100 ∧
        sc (fullNameReversed A) r.name ≤ 100)
    (hperfect : sc (fullName A) rec.name = 100 ∧
        sc (fullNameReversed A) rec.name = 100)
    (huniq : ∀ r ∈ rows, r.name ≠ rec.name →
        sc (fullName A) r.name < 100 ∧ sc (fullNameReversed A) r.name < 100)
    (hlast : dictLookup (buildDict rows) rec.name = some ⟨rec.ID, some d⟩) :
    resolveAthlete sc A rows
      = some ⟨rec.ID, 100, Confidence.High, true, some rec.ID⟩ := by
  have h1a := nf_reaches_perfect sc (fullName A) d rows rec hmem
    (fun r hr => (hbound r hr).1) hperfect.1
    (fun r hr hne => (huniq r hr hne).1) hlast
  have h1b := nf_reaches_perfect sc (fullNameReversed A) d rows rec hmem
    (fun r hr => (hbound r hr).2) hperfect.2
    (fun r hr hne => (huniq r hr hne).2) hlast
  have h2a := bf_reaches_perfect sc (fullName A) d rows rec
    (fun r hr => (hbound r hr).1) hperfect.1
    (fun r hr hne => (huniq r hr hne).1) hlast
  have h2b := bf_reaches_perfect sc (fullNameReversed A) d rows rec
    (fun r hr => (hbound r hr).2) hperfect.2
    (fun r hr hne => (huniq r hr hne).2) hlast
  have hpb := pickBetter_same (⟨rec.name, rec.ID, some d, 100, 100, 100⟩ : ScoredMatch)
  have hcomb : combineResults
      (some (⟨rec.name, rec.ID, some d, 100, 100, 100⟩ : ScoredMatch))
      (some (⟨rec.name, rec.ID, some d, 100, 100, 100⟩ : ScoredMatch))
      = (some (⟨rec.name, rec.ID, some d, 100, 100, 100⟩ : ScoredMatch),
          some 100) := by
    rw [combineResults_some_some, if_pos rfl]
    norm_num
  simp only [resolveAthlete, processAthlete, hqb, h1a, h1b, h2a, h2b, hpb, hcomb]
  norm_num [confidenceOf, recommendedOf, recommendedIdOf]

def rows7w : List WARow := [⟨"Ali Hassan", 123, some "2000-01-05"⟩]

def A7w : Athlete := ⟨"Hassan", "Ali", some "2000-01-05"⟩

theorem C7_exact_match_identity_witness :
    ((⟨"Ali Hassan", 123, some "2000-01-05"⟩ : WARow) ∈ rows7w) ∧
      A7w.birthDate = some "2000-01-05" ∧
      (fullName A7w = "Ali Hassan" ∨ fullNameReversed A7w = "Ali Hassan") ∧
      (∀ r ∈ rows7w, tokenSortRatio (fullName A7w) r.name ≤ 100 ∧
        tokenSortRatio (fullNameReversed A7w) r.name ≤ 100) ∧
      (tokenSortRatio (fullName A7w) "Ali Hassan" = 100 ∧
        tokenSortRatio (fullNameReversed A7w) "Ali Hassan" = 100) ∧
      resolveAthlete tokenSortRatio A7w rows7w
        = some ⟨123, 100, Confidence.High, true, some 123⟩ := by
  refine ⟨by decide, rfl, by decide, by decide, by decide, ?_⟩
  exact C7_exact_match_identity tokenSortRatio A7w rows7w
    ⟨"Ali Hassan", 123, some "2000-01-05"⟩ "2000-01-05"
    (by decide) rfl rfl (by decide) (by decide) (by decide) (by decide) (by decide)

def rows7c : List WARow :=
  [⟨"B A", 2, some "2000-01-05"⟩, ⟨"A B", 1, some "2000-01-05"⟩]

def A7c : Athlete := ⟨"A", "B", some "2000-01-05"⟩

def M7 : ScoredMatch := ⟨"B A", 2, some "2000-01-05", 100, 100, 100⟩

/-- Claim C7 counterexample: the query name "A B" equals the canonical
name of record id 1 and the birth dates agree, yet the pipeline reports
id 2 (the token-permuted record "B A", which ties at combined score 100
and is scanned first), so `recommended_id` is not that record's id. -/
theorem C7_exact_match_identity_counterexample :
    (⟨"A B", 1, some "2000-01-05"⟩ : WARow) ∈ rows7c ∧
      fullName A7c = "A B" ∧ A7c.birthDate = some "2000-01-05" ∧
      resolveAthlete tokenSortRatio A7c rows7c
        = some ⟨2, 100, Confidence.High, true, some 2⟩ ∧
      (2 : Nat) ≠ 1 := by
  refine ⟨by decide, by decide, rfl, ?_, by decide⟩
  have hfn : fullName A7c = "A B" := by decide
  have hfr : fullNameReversed A7c = "B A" := by decide
  have hqb : A7c.birthDate = some "2000-01-05" := rfl
  have hlook1 : dictLookup (buildDict rows7c) "B A"
      = some ⟨2, some "2000-01-05"⟩ := by decide
  have hlook2 : dictLookup (buildDict rows7c) "A B"
      = some ⟨1, some "2000-01-05"⟩ := by decide
  have hexta : extract tokenSortRatio "A B" (namesList rows7c) 5
      = [("B A", 100), ("A B", 100)] := by decide
  have hextb : extract tokenSortRatio "B A" (namesList rows7c) 5
      = [("B A", 100), ("A B", 100)] := by decide
  have h1a : find_best_match_name_first tokenSortRatio "A B" (some "2000-01-05")
      (namesList rows7c) (buildDict rows7c) = some M7 := by
    unfold find_best_match_name_first
    rw [hexta]
    norm_num [bestStep, nfValue, mkScored, combinedOf, bdScoreOf, hlook1, hlook2, M7]
  have h1b : find_best_match_name_first tokenSortRatio "B A" (some "2000-01-05")
      (namesList rows7c) (buildDict rows7c) = some M7 := by
    unfold find_best_match_name_first
    rw [hextb]
    norm_num [bestStep, nfValue, mkScored, combinedOf, bdScoreOf, hlook1, hlook2, M7]
  have hclook1 : dictLookup (birthCandidates (some "2000-01-05") (buildDict rows7c)) "B A"
      = some ⟨2, some "2000-01-05"⟩ := by decide
  have hclook2 : dictLookup (birthCandidates (some "2000-01-05") (buildDict rows7c)) "A B"
      = some ⟨1, some "2000-01-05"⟩ := by decide
  have hextca : extract tokenSortRatio "A B"
      ((birthCandidates (some "2000-01-05") (buildDict rows7c)).map (fun p => p.1)) 5
      = [("B A", 100), ("A B", 100)] := by decide
  have hextcb : extract tokenSortRatio "B A"
      ((birthCandidates (some "2000-01-05") (buildDict rows7c)).map (fun p => p.1)) 5
      = [("B A", 100), ("A B", 100)] := by decide
  have hne : ¬ ((birthCandidates (some "2000-01-05") (buildDict rows7c)).isEmpty = true) := by
    decide
  have h2a : find_best_match_birth_first tokenSortRatio (some "2000-01-05") "A B"
      (buildDict rows7c) = some M7 := by
    unfold find_best_match_birth_first
    rw [if_neg hne, hextca]
    norm_num [bestStep, bfValue, mkScoredBF, hclook1, hclook2, M7]
  have h2b : find_best_match_birth_first tokenSortRatio (some "2000-01-05") "B A"
      (buildDict rows7c) = some M7 := by
    unfold find_best_match_birth_first
    rw [if_neg hne, hextcb]
    norm_num [bestStep, bfValue, mkScoredBF, hclook1, hclook2, M7]
  have hpb : pickBetter (some M7) (some M7) = some M7 := by
    show (if M7.combinedScore ≥ M7.combinedScore then some M7 else some M7) = some M7
    split <;> rfl
  have hcomb : combineResults (some M7) (some M7) = (some M7, some 100) := by
    have hred : combineResults (some M7) (some M7)
        = if M7.matchedID = M7.matchedID then
            (some M7, some ((M7.combinedScore + M7.combinedScore) / 2))
          else if M7.combinedScore ≥ M7.combinedScore then
            (some M7, some (M7.combinedScore * (9/10)))
          else (some M7, some (M7.combinedScore * (9/10))) := rfl
    rw [hred, if_pos rfl]
    norm_num [M7]
  simp only [resolveAthlete, processAthlete, hqb, hfn, hfr, h1a, h1b, h2a, h2b,
    hpb, hcomb]
  norm_num [confidenceOf, recommendedOf, recommendedIdOf, M7]
